import Mathlib

/-!
# Verification of the torchcde CDE solver core (`torchcde/solver.py`)

This file gives a shallow embedding of the CDE integration layer:

* the per-tensor and structural compatibility checks
  (`_check_compatability_per_tensor_base` / `_forward` / `_prod`,
  `_check_compatability`),
* the `_VectorField` adapter (its `forward` method with the three
  coupling modes `matmul`, `evaluate`, `derivative`),
* the `cdeint` orchestrator (tolerance defaulting, adjoint-parameter
  warnings, the call handed to the external `torchdiffeq` integrator,
  and the output permutation into the public layout),
* and a spec-level model of the gradient-isolation registry
  (`register_computed_parameter`), whose implementation lives outside
  the visible sources.

Tensors are modelled as a shape (a list of dimension sizes) together
with a rational-valued entry function on multi-indices (row index
lists); Python floats are modelled by `ℚ`.  Python exceptions are
modelled by `Except` with an inductive error type whose constructors
correspond one-to-one to the `raise` sites of the source.
-/

set_option autoImplicit false

namespace Torchcde

/-- A (batched) tensor: a shape together with an entry function on
multi-indices.  Entries at out-of-range indices are junk values that no
theorem depends on. -/
structure Tensor where
  shape : List ℕ
  data : List ℕ → ℚ

theorem Tensor.eq_of (a b : Tensor) (h1 : a.shape = b.shape)
    (h2 : a.data = b.data) : a = b := by
  cases a; cases b; simp_all

/-- Embedding of `t.unsqueeze(-1)`: append a trailing dimension of size one. -/
def Tensor.unsqueezeLast (x : Tensor) : Tensor where
  shape := x.shape ++ [1]
  data := fun idx => x.data idx.dropLast

/-- Embedding of `t.squeeze(-1)`: drop the trailing dimension when it has size one,
otherwise return the tensor unchanged (torch semantics). -/
def Tensor.squeezeLast (x : Tensor) : Tensor :=
  if x.shape.getLastD 0 = 1 then
    ⟨x.shape.dropLast, fun idx => x.data (idx ++ [0])⟩
  else x

/-- Batched matrix multiplication `A @ B` for equal batch shapes:
`A : s ++ [m, k]`, `B : s ++ [k, n]` gives `s ++ [m, n]` with
`C[b, r, c] = ∑ j, A[b, r, j] * B[b, j, c]`. -/
def Tensor.matmul (A B : Tensor) : Tensor where
  shape := A.shape.dropLast ++ [B.shape.getLastD 0]
  data := fun idx =>
    ∑ j ∈ Finset.range (A.shape.getLastD 0),
      A.data (idx.dropLast ++ [j]) *
        B.data (idx.dropLast.dropLast ++ [j, idx.getLastD 0])

/-- Embedding of `torch.cat([A, B], -1)`: concatenation along the channel (last)
dimension. -/
def Tensor.catLast (A B : Tensor) : Tensor where
  shape := A.shape.dropLast ++ [A.shape.getLastD 0 + B.shape.getLastD 0]
  data := fun idx =>
    if idx.getLastD 0 < A.shape.getLastD 0 then A.data idx
    else B.data (idx.dropLast ++ [idx.getLastD 0 - A.shape.getLastD 0])

/-- A Python value as it flows through the solver: a tensor, a tuple,
a list, or some other opaque object (identified by a tag). -/
inductive PyVal where
  | tensor (t : Tensor)
  | tup (xs : List PyVal)
  | list (xs : List PyVal)
  | other (oid : ℕ)

/-- Embedding of `isinstance(v, (tuple, list))` together with element access: the
element list when `v` is a tuple or a list. -/
def elemsOf : PyVal → Option (List PyVal)
  | .tup xs => some xs
  | .list xs => some xs
  | _ => none

/-- One constructor per `raise` site of `solver.py` (plus `attrError` /
`typeError` for the exceptions Python itself would raise on a missing
attribute or an ill-typed builtin call). -/
inductive Err where
  | noDerivativeAttr
  | derivativeBatchMismatch (controlGradientShape z0Shape : List ℕ)
  | funcBatchMismatch (systemShape z0Shape : List ℕ)
  | funcHiddenMismatch (systemShape z0Shape : List ℕ)
  | funcInputMismatch (systemShape controlGradientShape : List ℕ)
  | prodShapeMismatch (vectorFieldShape z0Shape : List ℕ)
  | derivNotTensor
  | funcNotTensor
  | prodNotTensor
  | derivNotSeq
  | funcNotSeq
  | prodNotSeq
  | lenMismatchDeriv
  | lenMismatchFunc
  | lenMismatchProd
  | derivElemNotTensor
  | funcElemNotTensor
  | prodElemNotTensor
  | z0NotTensorOrSeq
  | onlyMatmulForProd
  | vectorFieldTypeNotRecognised
  | attrError
  | typeError
  deriving DecidableEq

/-- Lines 6-12: the control gradient must have the same batch
dimensions (all dims but the last) as `z0`. -/
def _check_compatability_per_tensor_base (control_gradient z0 : Tensor) :
    Except Err Unit :=
  if control_gradient.shape.dropLast ≠ z0.shape.dropLast then
    .error (.derivativeBatchMismatch control_gradient.shape z0.shape)
  else .ok ()

/-- Lines 15-32: checks for the no-shortcut case: batch dims of the
system output (all dims but the last two), its hidden-channel dim
(second-to-last) against `z0`'s channels, and its input-channel dim
(last) against the control gradient's channels. -/
def _check_compatability_per_tensor_forward
    (control_gradient system z0 : Tensor) : Except Err Unit :=
  match _check_compatability_per_tensor_base control_gradient z0 with
  | .error e => .error e
  | .ok _ =>
    if system.shape.dropLast.dropLast ≠ z0.shape.dropLast then
      .error (.funcBatchMismatch system.shape z0.shape)
    else if system.shape.dropLast.getLastD 0 ≠ z0.shape.getLastD 0 then
      .error (.funcHiddenMismatch system.shape z0.shape)
    else if system.shape.getLastD 0 ≠ control_gradient.shape.getLastD 0 then
      .error (.funcInputMismatch system.shape control_gradient.shape)
    else .ok ()

/-- Lines 35-40: checks for the shortcut case: `func.prod`'s output
shape must equal `z0`'s shape exactly. -/
def _check_compatability_per_tensor_prod
    (control_gradient vector_field z0 : Tensor) : Except Err Unit :=
  match _check_compatability_per_tensor_base control_gradient z0 with
  | .error e => .error e
  | .ok _ =>
    if vector_field.shape ≠ z0.shape then
      .error (.prodShapeMismatch vector_field.shape z0.shape)
    else .ok ()

/-- A differentiable buffer owned by the control path, identified by
its Python object identity `bid`. -/
structure Buffer where
  bid : ℕ
  requires_grad : Bool
  deriving DecidableEq

/-- The control path `X`: an object that may expose `derivative(t)` and
`evaluate(t)` (both `Option`, modelling `hasattr`/`getattr`), and an
enumerable collection of its differentiable buffers. -/
structure ControlPath where
  derivative : Option (ℚ → PyVal)
  evaluate : Option (ℚ → PyVal)
  buffers : List Buffer

/-- The vector field `func`: callable as `func(t, z)` and optionally
exposing the `prod(t, z, dXdt)` shortcut. -/
structure VField where
  call : ℚ → PyVal → PyVal
  prod : Option (ℚ → PyVal → PyVal → PyVal)

/-- Per-element loop of the tuple-mode forward check (lines 89-94):
each control-gradient and system element must be a tensor, and the
per-tensor forward check must pass (accessing a non-tensor `z0`
element's shape raises a `typeError`). -/
def _check_elems_forward :
    List PyVal → List PyVal → List PyVal → Except Err Unit
  | cg :: cgs, sys :: syss, z :: zs =>
    match cg with
    | .tensor cgT =>
      match sys with
      | .tensor sysT =>
        match z with
        | .tensor zT =>
          match _check_compatability_per_tensor_forward cgT sysT zT with
          | .error e => .error e
          | .ok _ => _check_elems_forward cgs syss zs
        | _ => .error .typeError
      | _ => .error .funcElemNotTensor
    | _ => .error .derivElemNotTensor
  | _, _, _ => .ok ()

/-- Per-element loop of the tuple-mode shortcut check (lines 78-83). -/
def _check_elems_prod :
    List PyVal → List PyVal → List PyVal → Except Err Unit
  | cg :: cgs, vf :: vfs, z :: zs =>
    match cg with
    | .tensor cgT =>
      match vf with
      | .tensor vfT =>
        match z with
        | .tensor zT =>
          match _check_compatability_per_tensor_prod cgT vfT zT with
          | .error e => .error e
          | .ok _ => _check_elems_prod cgs vfs zs
        | _ => .error .typeError
      | _ => .error .prodElemNotTensor
    | _ => .error .derivElemNotTensor
  | _, _, _ => .ok ()

/-- Single-tensor branch of `_check_compatability` (lines 54-65). -/
def _check_tensor_mode (control_gradient fval : PyVal) (isProd : Bool)
    (z0T : Tensor) : Except Err Unit :=
  match control_gradient with
  | .tensor cgT =>
    if isProd then
      match fval with
      | .tensor vfT => _check_compatability_per_tensor_prod cgT vfT z0T
      | _ => .error .prodNotTensor
    else
      match fval with
      | .tensor sysT => _check_compatability_per_tensor_forward cgT sysT z0T
      | _ => .error .funcNotTensor
  | _ => .error .derivNotTensor

/-- Tuple/list branch of `_check_compatability` (lines 67-94). -/
def _check_tuple_mode (control_gradient fval : PyVal) (isProd : Bool)
    (zs : List PyVal) : Except Err Unit :=
  match elemsOf control_gradient with
  | none => .error .derivNotSeq
  | some cgs =>
    if zs.length ≠ cgs.length then .error .lenMismatchDeriv
    else if isProd then
      match elemsOf fval with
      | none => .error .prodNotSeq
      | some vfs =>
        if zs.length ≠ vfs.length then .error .lenMismatchProd
        else _check_elems_prod cgs vfs zs
    else
      match elemsOf fval with
      | none => .error .funcNotSeq
      | some syss =>
        if zs.length ≠ syss.length then .error .lenMismatchFunc
        else _check_elems_forward cgs syss zs

/-- Lines 47-52: the single validation evaluation of the field at
`t[0]`: `func.prod(t[0], z0, control_gradient)` when the shortcut is
present, `func(t[0], z0)` otherwise. -/
def fvalOf (func : VField) (t0 : ℚ) (z0 cg : PyVal) : PyVal :=
  match func.prod with
  | some p => p t0 z0 cg
  | none => func.call t0 z0

/-- Lines 43-99: the structural compatibility check.  Evaluates the
control gradient and the field once at `t[0]`, determines the
structural mode from `z0`, and runs the per-tensor checks; returns
`(is_tensor, is_prod)`. -/
def _check_compatability (X : ControlPath) (func : VField) (z0 : PyVal)
    (t : List ℚ) : Except Err (Bool × Bool) :=
  match X.derivative with
  | none => .error .noDerivativeAttr
  | some d =>
    match z0 with
    | .tensor z0T =>
      match _check_tensor_mode (d (t.headD 0))
          (fvalOf func (t.headD 0) z0 (d (t.headD 0))) func.prod.isSome
          z0T with
      | .error e => .error e
      | .ok _ => .ok (true, func.prod.isSome)
    | .tup zs =>
      match _check_tuple_mode (d (t.headD 0))
          (fvalOf func (t.headD 0) z0 (d (t.headD 0))) func.prod.isSome
          zs with
      | .error e => .error e
      | .ok _ => .ok (false, func.prod.isSome)
    | .list zs =>
      match _check_tuple_mode (d (t.headD 0))
          (fvalOf func (t.headD 0) z0 (d (t.headD 0))) func.prod.isSome
          zs with
      | .error e => .error e
      | .ok _ => .ok (false, func.prod.isSome)
    | .other _ => .error .z0NotTensorOrSeq

/-- The `_VectorField` adapter module (lines 102-110): wraps the control
path and the field with the structural mode flags and the coupling
mode string. -/
structure _VectorField where
  X : ControlPath
  func : VField
  is_tensor : Bool
  is_prod : Bool
  method : String

/-- Line 135-136: the tuple-mode matmul comprehension
`tuple((vf @ cg.unsqueeze(-1)).squeeze(-1) for vf, cg in zip(...))` —
each zipped pair must be a pair of tensors. -/
def matmulElems : List (PyVal × PyVal) → Except Err (List PyVal)
  | [] => .ok []
  | (.tensor a, .tensor b) :: rest =>
    match matmulElems rest with
    | .error e => .error e
    | .ok outs => .ok (.tensor ((a.matmul b.unsqueezeLast).squeezeLast) :: outs)
  | _ => .error .typeError

/-- Embedding of `_VectorField.forward` (lines 112-138): the right-hand side handed
to the external integrator.  With the shortcut, only `matmul` mode is
implemented; in `evaluate`/`derivative` modes the state is concatenated
with the path data along the channel dimension and fed to `func`; in
`matmul` mode the field output is contracted with the control gradient
via `(vf @ cg.unsqueeze(-1)).squeeze(-1)`, per tuple element in tuple
mode. -/
def _VectorField.forward (m : _VectorField) (t : ℚ) (z : PyVal) :
    Except Err PyVal :=
  match m.X.derivative with
  | none => .error .attrError
  | some d =>
    let control_gradient := d t
    if m.is_prod then
      if m.method ≠ "matmul" then .error .onlyMatmulForProd
      else
        match m.func.prod with
        | some p => .ok (p t z control_gradient)
        | none => .error .attrError
    else
      if m.method = "evaluate" ∨ m.method = "derivative" then
        match (if m.method = "evaluate" then m.X.evaluate else m.X.derivative) with
        | none => .error .attrError
        | some g =>
          match z, g t with
          | .tensor zT, .tensor xT =>
            .ok (m.func.call t (.tensor (zT.catLast xT)))
          | _, _ => .error .typeError
      else
        let vfv := m.func.call t z
        if m.is_tensor then
          match vfv, control_gradient with
          | .tensor vfT, .tensor cgT =>
            .ok (.tensor ((vfT.matmul cgT.unsqueezeLast).squeezeLast))
          | _, _ => .error .typeError
        else
          match elemsOf vfv, elemsOf control_gradient with
          | some vfs, some cgs =>
            match matmulElems (List.zip vfs cgs) with
            | .error e => .error e
            | .ok outs => .ok (.tup outs)
          | _, _ => .error .typeError

/-- The keyword arguments of `cdeint` that the orchestrator itself
inspects: the tolerances (lines 194-197) and the declared
adjoint-sensitive parameters (line 203, as Python object identities).
All other keyword arguments are forwarded verbatim and play no role in
the claims. -/
structure Kwargs where
  atol : Option ℚ := none
  rtol : Option ℚ := none
  adjoint_params : Option (List ℕ) := none

/-- Lines 194-197: default tolerances `atol = 1e-6`, `rtol = 1e-4` are
installed when the caller supplied none; caller-supplied values are
kept. -/
def fillTolerances (kwargs : Kwargs) : Kwargs :=
  { kwargs with
    atol := some (kwargs.atol.getD (1 / 1000000)),
    rtol := some (kwargs.rtol.getD (1 / 10000)) }

/-- Python's `x in gen` on a generator: scan for `x`, consuming the
generator up to and including the first match (or entirely when `x` is
absent).  Returns the verdict together with the remaining, unconsumed
suffix. -/
def consumeFind (x : ℕ) : List ℕ → Bool × List ℕ
  | [] => (false, [])
  | y :: ys => if y = x then (true, ys) else consumeFind x ys

/-- Lines 207-221: scan the buffers of `X`; for each differentiable
buffer whose id the membership test fails to find, emit a warning
(collected here as the list of warned buffer ids).  Faithful to the
source, the membership test runs against the *generator*
`_adjoint_params`, so each test consumes it. -/
def adjointWarningsGo : List ℕ → List Buffer → List ℕ
  | _, [] => []
  | gen, b :: bs =>
    if b.requires_grad then
      let r := consumeFind b.bid gen
      if r.1 then adjointWarningsGo r.2 bs
      else b.bid :: adjointWarningsGo r.2 bs
    else adjointWarningsGo gen bs

/-- Lines 201-221: the adjoint-parameter warning pass.
`adjoint_params = none` models a missing `kwargs['adjoint_params']`
(the `KeyError` branch, which yields the empty generator). -/
def adjointWarnings (buffers : List Buffer)
    (adjoint_params : Option (List ℕ)) : List ℕ :=
  adjointWarningsGo (adjoint_params.getD []) buffers

/-- The single call handed to the external integrator at line 225:
`odeint(func=vector_field, y0=z0, t=t, **kwargs)`, with the flavour
selected by `adjoint`. -/
structure OdeintCall where
  adjoint : Bool
  func : _VectorField
  y0 : PyVal
  t : List ℚ
  kwargs : Kwargs

/-- Position of `j` in a list (length of the list when absent). -/
def posIn (j : ℕ) : List ℕ → ℕ
  | [] => 0
  | a :: as => if a = j then 0 else posIn j as + 1

/-- Embedding of `x.permute(p)`: dimension `k` of the result is dimension `p[k]` of
`x`, so the result's entry at `idx` is `x`'s entry at the index list
whose `j`-th component is `idx[posIn j p]`. -/
def Tensor.permute (x : Tensor) (p : List ℕ) : Tensor where
  shape := p.map fun j => x.shape.getD j 0
  data := fun idx =>
    x.data ((List.range x.shape.length).map fun j => idx.getD (posIn j p) 0)

/-- Lines 228-229 / 233-234: `out.permute(*range(1, n-1), 0, -1)` —
move the leading (sequence) dimension to second-to-last position. -/
def permuteSeq (x : Tensor) : Tensor :=
  x.permute (List.range' 1 (x.shape.length - 2) ++ [0, x.shape.length - 1])

/-- Lines 231-235: the per-element permutation loop of tuple mode. -/
def permuteElems : List PyVal → Except Err (List PyVal)
  | [] => .ok []
  | .tensor T :: rest =>
    match permuteElems rest with
    | .error e => .error e
    | .ok ys => .ok (.tensor (permuteSeq T) :: ys)
  | _ => .error .typeError

/-- Lines 227-236: reshape the integrator's native (sequence-first)
output into the public layout, per tuple element in multi-state mode;
tuple mode always rebuilds a `tuple`. -/
def permuteOutput (is_tensor : Bool) (out : PyVal) : Except Err PyVal :=
  if is_tensor then
    match out with
    | .tensor T => .ok (.tensor (permuteSeq T))
    | _ => .error .typeError
  else
    match elemsOf out with
    | some xs =>
      match permuteElems xs with
      | .error e => .error e
      | .ok ys => .ok (.tup ys)
    | none => .error .typeError

/-- Lines 190-225 of `cdeint`, up to (and including) assembling the
call to the external integrator: coupling-mode validation, tolerance
defaulting, the compatibility check, the adjoint-parameter warning
pass, and the construction of the `_VectorField`.  Returns the warned
buffer ids together with the integrator call. -/
def cdeint_pre (X : ControlPath) (func : VField) (z0 : PyVal) (t : List ℚ)
    (adjoint : Bool) (vector_field_type : String) (kwargs : Kwargs) :
    Except Err (List ℕ × OdeintCall) :=
  if vector_field_type ∈ ["matmul", "evaluate", "derivative"] then
    let kwargs := fillTolerances kwargs
    match _check_compatability X func z0 t with
    | .error e => .error e
    | .ok (is_tensor, is_prod) =>
      let warns :=
        if adjoint then adjointWarnings X.buffers kwargs.adjoint_params else []
      .ok (warns,
        ⟨adjoint, ⟨X, func, is_tensor, is_prod, vector_field_type⟩, z0, t,
          kwargs⟩)
  else .error .vectorFieldTypeNotRecognised

/-- Lines 141-238: the full `cdeint`, parametric in the external
integrator (`torchdiffeq.odeint` / `odeint_adjoint`), which is opaque
to this layer.  Returns the warned buffer ids alongside the
trajectory. -/
def cdeint (X : ControlPath) (func : VField) (z0 : PyVal) (t : List ℚ)
    (adjoint : Bool) (vector_field_type : String) (kwargs : Kwargs)
    (odeint : OdeintCall → Except Err PyVal) :
    Except Err (List ℕ × PyVal) :=
  match cdeint_pre X func z0 t adjoint vector_field_type kwargs with
  | .error e => .error e
  | .ok (warns, call) =>
    match odeint call with
    | .error e => .error e
    | .ok out =>
      match permuteOutput call.func.is_tensor out with
      | .error e => .error e
      | .ok res => .ok (warns, res)

/-- The contraction that the spec describes for `matmul` mode, written
from the spec's words (for comparison against the adapter's
matmul-unsqueeze-squeeze expression): contract the field output
(shape `batch... × hidden × input`) with the control gradient
(shape `batch... × input`) over the input (last) dimension, giving
shape `batch... × hidden`. -/
def specContraction (vf cg : Tensor) : Tensor where
  shape := vf.shape.dropLast
  data := fun idx =>
    ∑ j ∈ Finset.range (vf.shape.getLastD 0),
      vf.data (idx ++ [j]) * cg.data (idx.dropLast ++ [j])

/-- Modelled from the spec: the host autodiff substrate's computation
graph, which `register_computed_parameter` (not present under `src/`,
only its test is) manipulates.  A value is either a leaf parameter
(identified by its object id) or the result of applying a
differentiable operation to argument values.  Numeric payloads are
omitted: the registry claims concern only gradient topology. -/
inductive DValue where
  | param (pid : ℕ)
  | app (args : List DValue)

/-- The leaf parameters a value's gradient graph reaches. -/
def DValue.paramIds : DValue → List ℕ
  | .param i => [i]
  | .app args =>
    args.attach.flatMap fun a =>
      have : sizeOf a.1 < 1 + sizeOf args := by
        have := List.sizeOf_lt_of_mem a.2
        omega
      a.1.paramIds

/-- Modelled from the spec: backward differentiation of `y` with
respect to the leaf parameter `i` reports a gradient contribution
exactly when `i` is among the leaf parameters of `y`'s graph
(otherwise `torch.autograd.grad` reports no dependency). -/
def hasGradientPath (y : DValue) (i : ℕ) : Prop :=
  i ∈ y.paramIds

/-- Modelled from the spec: `value.clone()` — a differentiable copy,
a fresh node whose single inbound edge is the cloned value. -/
def DValue.clone (v : DValue) : DValue := .app [v]

set_option linter.unusedVariables false in
/-- Modelled from the spec: `register_computed_parameter(container,
name, value)` installs a structurally-independent copy of `value` —
same data, but a fresh graph leaf with no inbound edges to whatever
produced `value` — under `name` on the container.  (The container
bookkeeping and device relocation are not modelled; the claim concerns
only the severed graph dependency.) -/
def register_computed_parameter (freshId : ℕ) (value : DValue) : DValue :=
  .param freshId

/-- Values expressible as functions of the values in `S`: members of
`S` themselves, and differentiable operations applied to such
values. -/
inductive BuiltFrom (S : List DValue) : DValue → Prop
  | base {v : DValue} : v ∈ S → BuiltFrom S v
  | mk {args : List DValue} :
      (∀ a ∈ args, BuiltFrom S a) → BuiltFrom S (.app args)

theorem posIn_append_of_mem {j : ℕ} {l1 : List ℕ} (l2 : List ℕ)
    (h : j ∈ l1) : posIn j (l1 ++ l2) = posIn j l1 := by
  induction l1 with
  | nil => cases h
  | cons a as ih =>
    simp only [List.cons_append, posIn]
    by_cases ha : a = j
    · simp [ha]
    · have hmem : j ∈ as := by
        rcases List.mem_cons.mp h with h' | h'
        · exact absurd h'.symm ha
        · exact h'
      simp [ha, ih hmem]

theorem posIn_append_of_not_mem {j : ℕ} {l1 : List ℕ} (l2 : List ℕ)
    (h : j ∉ l1) : posIn j (l1 ++ l2) = l1.length + posIn j l2 := by
  induction l1 with
  | nil => simp [posIn]
  | cons a as ih =>
    have ha : a ≠ j := fun hc => h (by simp [hc])
    have has : j ∉ as := fun hc => h (by simp [hc])
    have hstep : posIn j ((a :: as) ++ l2) = posIn j (as ++ l2) + 1 := by
      simp [posIn, ha]
    rw [hstep, ih has, List.length_cons]
    omega

theorem posIn_range' (s k m : ℕ) (h : k < m) :
    posIn (s + k) (List.range' s m) = k := by
  induction m generalizing s k with
  | zero => omega
  | succ m ih =>
    rw [List.range'_succ]
    simp only [posIn]
    cases k with
    | zero => simp
    | succ k' =>
      have hne : s ≠ s + (k' + 1) := by omega
      rw [if_neg hne, show s + (k' + 1) = (s + 1) + k' by omega,
        ih (s + 1) k' (by omega)]

theorem map_getD_range' (l : List ℕ) (d : ℕ) :
    ∀ s, (List.range' s l.length).map (fun j => l.getD (j - s) d) = l := by
  induction l with
  | nil => simp
  | cons a as ih =>
    intro s
    rw [show (a :: as).length = as.length + 1 from rfl, List.range'_succ]
    simp only [List.map_cons, Nat.sub_self, List.getD_cons_zero]
    congr 1
    rw [List.map_congr_left (g := fun j => as.getD (j - (s + 1)) d), ih (s + 1)]
    intro x hx
    have hxs : s + 1 ≤ x := (List.mem_range'_1.mp hx).1
    rw [show x - s = (x - (s + 1)) + 1 by omega, List.getD_cons_succ]

theorem range'_split (s m n : ℕ) :
    List.range' s (m + n) = List.range' s m ++ List.range' (s + m) n := by
  have h := List.range'_append s m n 1
  simp only [one_mul, Nat.add_comm n m] at h
  simpa using h.symm

/-- C3: the per-component compatibility checks raise exactly when one
of the numeric conditions fails — the control gradient's batch shape
(all dims but the last) differs from `z0`'s; or, with no shortcut, the
field output's batch shape (all dims but the last two) differs from
`z0`'s batch shape, its second-to-last dimension differs from `z0`'s
channel count, or its last dimension differs from the control
gradient's channel count; or, with the shortcut, the shortcut output's
shape differs from `z0`'s shape exactly; otherwise they pass. -/
theorem C3_per_tensor_checks (cg system vf z0 : Tensor) :
    ((∃ e, _check_compatability_per_tensor_forward cg system z0 = .error e) ↔
      (cg.shape.dropLast ≠ z0.shape.dropLast ∨
       system.shape.dropLast.dropLast ≠ z0.shape.dropLast ∨
       system.shape.dropLast.getLastD 0 ≠ z0.shape.getLastD 0 ∨
       system.shape.getLastD 0 ≠ cg.shape.getLastD 0)) ∧
    ((∃ e, _check_compatability_per_tensor_prod cg vf z0 = .error e) ↔
      (cg.shape.dropLast ≠ z0.shape.dropLast ∨ vf.shape ≠ z0.shape)) := by
  unfold _check_compatability_per_tensor_forward
    _check_compatability_per_tensor_prod _check_compatability_per_tensor_base
  simp only [List.getLastD_eq_getLast?]
  by_cases h1 : cg.shape.dropLast = z0.shape.dropLast <;>
    by_cases h2 : system.shape.dropLast.dropLast = z0.shape.dropLast <;>
      by_cases h3 :
          system.shape.dropLast.getLast?.getD 0 = z0.shape.getLast?.getD 0 <;>
        by_cases h4 :
            system.shape.getLast?.getD 0 = cg.shape.getLast?.getD 0 <;>
          by_cases h5 : vf.shape = z0.shape <;>
            simp [h1, h2, h3, h4, h5]

/-- C9: an unrecognised coupling-mode string makes `cdeint` raise the
configuration error immediately — for every control path, field, state
and time grid alike, hence before the compatibility check runs and
before `X` or `func` could be evaluated even once. -/
theorem C9_unrecognised_mode (X : ControlPath) (func : VField) (z0 : PyVal)
    (t : List ℚ) (adjoint : Bool) (kwargs : Kwargs) (s : String)
    (hs : s ∉ (["matmul", "evaluate", "derivative"] : List String)) :
    cdeint_pre X func z0 t adjoint s kwargs =
      .error .vectorFieldTypeNotRecognised := by
  unfold cdeint_pre
  rw [if_neg hs]

theorem C9_witness :
    cdeint_pre ⟨none, none, []⟩ ⟨fun _ _ => .other 0, none⟩ (.other 0) []
        false "banana" {} = .error .vectorFieldTypeNotRecognised :=
  C9_unrecognised_mode _ _ _ _ _ _ _ (by decide)

/-- C7: when the caller supplies no absolute tolerance, `1e-6` is
passed to the external integrator, and when no relative tolerance is
supplied, `1e-4` is passed; caller-supplied values are forwarded
unchanged. -/
theorem C7_default_tolerances (X : ControlPath) (func : VField)
    (z0 : PyVal) (t : List ℚ) (adjoint : Bool) (vftype : String)
    (kwargs : Kwargs) (w : List ℕ) (call : OdeintCall)
    (h : cdeint_pre X func z0 t adjoint vftype kwargs = .ok (w, call)) :
    (kwargs.atol = none → call.kwargs.atol = some (1 / 1000000)) ∧
    (∀ a, kwargs.atol = some a → call.kwargs.atol = some a) ∧
    (kwargs.rtol = none → call.kwargs.rtol = some (1 / 10000)) ∧
    (∀ r, kwargs.rtol = some r → call.kwargs.rtol = some r) := by
  unfold cdeint_pre at h
  split at h
  · split at h
    · exact absurd h (by simp)
    · simp only [Except.ok.injEq, Prod.mk.injEq] at h
      obtain ⟨-, hc⟩ := h
      subst hc
      simp only [fillTolerances]
      refine ⟨fun ha => ?_, fun a ha => ?_, fun hr => ?_, fun r hr => ?_⟩ <;>
        simp [*]
  · exact absurd h (by simp)

theorem C7_witness :
    (fillTolerances {}).atol = some (1 / 1000000) ∧
    (fillTolerances {}).rtol = some (1 / 10000) :=
  ⟨(C7_default_tolerances ⟨some fun _ => .tensor ⟨[2], fun _ => 0⟩, none, []⟩
      ⟨fun _ _ => .tensor ⟨[2, 2], fun _ => 0⟩, none⟩
      (.tensor ⟨[2], fun _ => 0⟩) [0] false "matmul" {} [] _ rfl).1 rfl,
   (C7_default_tolerances ⟨some fun _ => .tensor ⟨[2], fun _ => 0⟩, none, []⟩
      ⟨fun _ _ => .tensor ⟨[2, 2], fun _ => 0⟩, none⟩
      (.tensor ⟨[2], fun _ => 0⟩) [0] false "matmul" {} [] _ rfl).2.2.1 rfl⟩

theorem dropLast_append_pair {α : Type} (l : List α) (a b : α) :
    (l ++ [a, b]).dropLast = l ++ [a] := by
  rw [show l ++ [a, b] = (l ++ [a]) ++ [b] by simp, List.dropLast_concat]

/-- The adapter's matmul-unsqueeze-squeeze expression coincides, as a
tensor, with the spec's contraction over the input dimension. -/
theorem matmulBranch_eq_specContraction (vf cg : Tensor) :
    (vf.matmul cg.unsqueezeLast).squeezeLast = specContraction vf cg := by
  have hsh : (vf.matmul cg.unsqueezeLast).shape = vf.shape.dropLast ++ [1] := by
    simp [Tensor.matmul, Tensor.unsqueezeLast]
  unfold Tensor.squeezeLast
  rw [hsh, if_pos (by simp)]
  refine Tensor.eq_of _ _ ?_ ?_
  · simp [specContraction, List.dropLast_concat]
  · funext idx
    simp only [Tensor.matmul, Tensor.unsqueezeLast, specContraction,
      List.dropLast_concat]
    refine Finset.sum_congr rfl fun j _ => ?_
    rw [show (idx ++ [0] : List ℕ).getLastD 0 = 0 by simp,
      dropLast_append_pair]

theorem matmulElems_tensors (ps : List (Tensor × Tensor)) :
    matmulElems (ps.map fun pr => (PyVal.tensor pr.1, PyVal.tensor pr.2)) =
      .ok (ps.map fun pr => PyVal.tensor (specContraction pr.1 pr.2)) := by
  induction ps with
  | nil => rfl
  | cons p ps ih =>
    obtain ⟨a, b⟩ := p
    simp only [List.map_cons, matmulElems, ih,
      matmulBranch_eq_specContraction]

/-- C1: for a single-tensor state, the adapter's right-hand side in
matmul mode equals the contraction of `func(t, z)` with
`X.derivative(t)` over the input dimension (shape `batch... × hidden`);
with the `prod` shortcut, it equals `func.prod(t, z, X.derivative(t))`
directly, with no matrix multiply; in tuple mode, the contraction is
applied independently per tuple element, producing a tuple of the same
length as the field's output. -/
theorem C1_matmul_mode (X : ControlPath) (func : VField)
    (is_tensor is_prod : Bool) (t : ℚ) (z : PyVal) (d : ℚ → PyVal)
    (hd : X.derivative = some d) :
    (is_prod = true → ∀ p, func.prod = some p →
      _VectorField.forward ⟨X, func, is_tensor, is_prod, "matmul"⟩ t z =
        .ok (p t z (d t))) ∧
    (is_prod = false → is_tensor = true → ∀ vfT cgT,
      func.call t z = .tensor vfT → d t = .tensor cgT →
      _VectorField.forward ⟨X, func, is_tensor, is_prod, "matmul"⟩ t z =
        .ok (.tensor (specContraction vfT cgT)) ∧
      (∀ s h i, vfT.shape = s ++ [h, i] →
        (specContraction vfT cgT).shape = s ++ [h])) ∧
    (is_prod = false → is_tensor = false → ∀ vts cts : List Tensor,
      func.call t z = .tup (vts.map PyVal.tensor) →
      d t = .tup (cts.map PyVal.tensor) →
      vts.length = cts.length →
      _VectorField.forward ⟨X, func, is_tensor, is_prod, "matmul"⟩ t z =
        .ok (.tup ((vts.zip cts).map fun pr =>
          PyVal.tensor (specContraction pr.1 pr.2))) ∧
      ((vts.zip cts).map fun pr =>
          PyVal.tensor (specContraction pr.1 pr.2)).length = vts.length) := by
  refine ⟨?_, ?_, ?_⟩
  · rintro rfl p hp
    simp [_VectorField.forward, hd, hp]
  · rintro rfl rfl vfT cgT hvf hcg
    refine ⟨?_, ?_⟩
    · simp [_VectorField.forward, hd, hvf, hcg,
        matmulBranch_eq_specContraction]
    · rintro s h i hsh
      simp [specContraction, hsh, dropLast_append_pair]
  · rintro rfl rfl vts cts hvf hcg hlen
    have hzip : (vts.map PyVal.tensor).zip (cts.map PyVal.tensor) =
        (vts.zip cts).map fun pr => (PyVal.tensor pr.1, PyVal.tensor pr.2) := by
      simpa [Prod.map] using
        List.zip_map PyVal.tensor PyVal.tensor vts cts
    refine ⟨?_, ?_⟩
    · simp [_VectorField.forward, hd, hvf, hcg, elemsOf, hzip,
        matmulElems_tensors]
    · simp [List.length_zip, hlen]

theorem C1_witness :
    (_VectorField.forward
        ⟨⟨some fun _ => .tensor ⟨[2, 3], fun _ => 1⟩, none, []⟩,
          ⟨fun _ _ => .other 0, some fun _ _ _ => .tensor ⟨[2, 2], fun _ => 5⟩⟩,
          true, true, "matmul"⟩ 0 (.other 1) =
      .ok (.tensor ⟨[2, 2], fun _ => 5⟩)) ∧
    (_VectorField.forward
        ⟨⟨some fun _ => .tensor ⟨[2, 3], fun _ => 1⟩, none, []⟩,
          ⟨fun _ _ => .tensor ⟨[2, 4, 3], fun _ => 2⟩, none⟩,
          true, false, "matmul"⟩ 0 (.other 1) =
      .ok (.tensor (specContraction ⟨[2, 4, 3], fun _ => 2⟩
        ⟨[2, 3], fun _ => 1⟩))) ∧
    (_VectorField.forward
        ⟨⟨some fun _ => .tup [.tensor ⟨[2, 3], fun _ => 1⟩], none, []⟩,
          ⟨fun _ _ => .tup [.tensor ⟨[2, 4, 3], fun _ => 2⟩], none⟩,
          false, false, "matmul"⟩ 0 (.other 1) =
      .ok (.tup [.tensor (specContraction ⟨[2, 4, 3], fun _ => 2⟩
        ⟨[2, 3], fun _ => 1⟩)])) := by
  refine ⟨?_, ?_, ?_⟩
  · exact (C1_matmul_mode
      ⟨some fun _ => .tensor ⟨[2, 3], fun _ => 1⟩, none, []⟩
      ⟨fun _ _ => .other 0, some fun _ _ _ => .tensor ⟨[2, 2], fun _ => 5⟩⟩
      true true 0 (.other 1) _ rfl).1 rfl _ rfl
  · exact ((C1_matmul_mode
      ⟨some fun _ => .tensor ⟨[2, 3], fun _ => 1⟩, none, []⟩
      ⟨fun _ _ => .tensor ⟨[2, 4, 3], fun _ => 2⟩, none⟩
      true false 0 (.other 1) _ rfl).2.1 rfl rfl
      ⟨[2, 4, 3], fun _ => 2⟩ ⟨[2, 3], fun _ => 1⟩ rfl rfl).1
  · exact ((C1_matmul_mode
      ⟨some fun _ => .tup [.tensor ⟨[2, 3], fun _ => 1⟩], none, []⟩
      ⟨fun _ _ => .tup [.tensor ⟨[2, 4, 3], fun _ => 2⟩], none⟩
      false false 0 (.other 1) _ rfl).2.2 rfl rfl
      [⟨[2, 4, 3], fun _ => 2⟩] [⟨[2, 3], fun _ => 1⟩] rfl rfl rfl).1

/-- C8: for a tensor state without the `prod` shortcut, the adapter's
right-hand side in `evaluate` mode is `func(t, concat(z, X.evaluate(t)))`
with the concatenation along the channel (last) dimension, and in
`derivative` mode it is `func(t, concat(z, X.derivative(t)))` with the
same concatenation. -/
theorem C8_concat_modes (X : ControlPath) (func : VField)
    (is_tensor : Bool) (t : ℚ) (zT : Tensor) (d ev : ℚ → PyVal)
    (hd : X.derivative = some d) (hev : X.evaluate = some ev) :
    (∀ xT : Tensor, ev t = .tensor xT →
      _VectorField.forward ⟨X, func, is_tensor, false, "evaluate"⟩ t
          (.tensor zT) =
        .ok (func.call t (.tensor (zT.catLast xT)))) ∧
    (∀ xT : Tensor, d t = .tensor xT →
      _VectorField.forward ⟨X, func, is_tensor, false, "derivative"⟩ t
          (.tensor zT) =
        .ok (func.call t (.tensor (zT.catLast xT)))) := by
  constructor <;> rintro xT hx <;>
    simp [_VectorField.forward, hd, hev, hx]

theorem C8_witness :
    (_VectorField.forward ⟨⟨some fun _ => .tensor ⟨[1, 3], fun _ => 2⟩,
          some fun _ => .tensor ⟨[1, 3], fun _ => 4⟩, []⟩,
        ⟨fun _ v => v, none⟩, true, false, "evaluate"⟩ 0
        (.tensor ⟨[1, 2], fun _ => 7⟩) =
      .ok (.tensor (Tensor.catLast ⟨[1, 2], fun _ => 7⟩
        ⟨[1, 3], fun _ => 4⟩))) ∧
    (_VectorField.forward ⟨⟨some fun _ => .tensor ⟨[1, 3], fun _ => 2⟩,
          some fun _ => .tensor ⟨[1, 3], fun _ => 4⟩, []⟩,
        ⟨fun _ v => v, none⟩, true, false, "derivative"⟩ 0
        (.tensor ⟨[1, 2], fun _ => 7⟩) =
      .ok (.tensor (Tensor.catLast ⟨[1, 2], fun _ => 7⟩
        ⟨[1, 3], fun _ => 2⟩))) :=
  ⟨(C8_concat_modes ⟨some fun _ => .tensor ⟨[1, 3], fun _ => 2⟩,
        some fun _ => .tensor ⟨[1, 3], fun _ => 4⟩, []⟩
      ⟨fun _ v => v, none⟩ true 0 ⟨[1, 2], fun _ => 7⟩ _ _ rfl rfl).1
      ⟨[1, 3], fun _ => 4⟩ rfl,
   (C8_concat_modes ⟨some fun _ => .tensor ⟨[1, 3], fun _ => 2⟩,
        some fun _ => .tensor ⟨[1, 3], fun _ => 4⟩, []⟩
      ⟨fun _ v => v, none⟩ true 0 ⟨[1, 2], fun _ => 7⟩ _ _ rfl rfl).2
      ⟨[1, 3], fun _ => 2⟩ rfl⟩

theorem mem_paramIds_app {i : ℕ} {args : List DValue} :
    i ∈ (DValue.app args).paramIds ↔ ∃ a ∈ args, i ∈ a.paramIds := by
  rw [DValue.paramIds]
  simp only [List.mem_flatMap, List.mem_attach, true_and]
  exact ⟨fun ⟨a, h⟩ => ⟨a.1, a.2, h⟩, fun ⟨a, ha, h⟩ => ⟨⟨a, ha⟩, h⟩⟩

theorem builtFrom_paramIds {S : List DValue} {F : DValue}
    (hb : BuiltFrom S F) : ∀ i ∈ F.paramIds, ∃ v ∈ S, i ∈ v.paramIds := by
  induction hb with
  | base hv => exact fun i hi => ⟨_, hv, hi⟩
  | mk hargs ih =>
    intro i hi
    rw [mem_paramIds_app] at hi
    obtain ⟨a, ha, hia⟩ := hi
    exact ih a ha i hia

/-- C6: if `B` is installed by `register_computed_parameter` from a
clone of `A`, then differentiating any function of `B` with respect to
(a leaf parameter of) `A` yields no gradient contribution, and
differentiating any function of `A` with respect to `B` yields none —
even though the clone `B` was registered from does depend on `A`
(third conjunct). -/
theorem C6_gradient_isolation (A : DValue) (b : ℕ)
    (hb : b ∉ A.paramIds) :
    (∀ F, BuiltFrom [register_computed_parameter b A.clone] F →
      ∀ i ∈ A.paramIds, ¬ hasGradientPath F i) ∧
    (∀ G, BuiltFrom [A] G → ¬ hasGradientPath G b) ∧
    (∀ i ∈ A.paramIds, hasGradientPath A.clone i) := by
  refine ⟨?_, ?_, ?_⟩
  · intro F hF i hi hpath
    obtain ⟨v, hv, hiv⟩ := builtFrom_paramIds hF i hpath
    rw [List.mem_singleton] at hv
    subst hv
    simp only [register_computed_parameter, DValue.paramIds,
      List.mem_singleton] at hiv
    exact hb (hiv ▸ hi)
  · intro G hG hpath
    obtain ⟨v, hv, hbv⟩ := builtFrom_paramIds hG b hpath
    rw [List.mem_singleton] at hv
    subst hv
    exact hb hbv
  · intro i hi
    exact mem_paramIds_app.mpr ⟨A, List.mem_singleton_self A, hi⟩

theorem C6_witness :
    (¬ hasGradientPath
      (DValue.app [register_computed_parameter 1 (DValue.param 0).clone])
      0) ∧
    (¬ hasGradientPath (DValue.app [DValue.param 0]) 1) := by
  constructor
  · refine (C6_gradient_isolation (.param 0) 1
      (by simp [DValue.paramIds])).1 _ ?_ 0 (by simp [DValue.paramIds])
    refine BuiltFrom.mk fun a ha => ?_
    rw [List.mem_singleton] at ha
    exact ha ▸ BuiltFrom.base (List.mem_singleton_self _)
  · refine (C6_gradient_isolation (.param 0) 1
      (by simp [DValue.paramIds])).2.1 _ ?_
    refine BuiltFrom.mk fun a ha => ?_
    rw [List.mem_singleton] at ha
    exact ha ▸ BuiltFrom.base (List.mem_singleton_self _)

/-- C5 (exhibiting the code bug): with two differentiable buffers
`b1` (id 1), `b2` (id 2) on `X` and declared
`adjoint_params = [b2, b1]` (ids `[2, 1]`), the warning pass warns for
buffer 2 even though it is in the declared set: the first membership
test consumes the id generator past `2`, so the second test cannot see
it.  The third conjunct shows the same behaviour end to end through
`cdeint`'s pre-integration phase (which still proceeds to
integration). -/
theorem C5_generator_bug :
    adjointWarnings [⟨1, true⟩, ⟨2, true⟩] (some [2, 1]) = [2] ∧
    (2 : ℕ) ∈ [2, 1] ∧
    Except.map Prod.fst
      (cdeint_pre ⟨some fun _ => .tensor ⟨[2], fun _ => 0⟩, none,
          [⟨1, true⟩, ⟨2, true⟩]⟩
        ⟨fun _ _ => .tensor ⟨[2, 2], fun _ => 0⟩, none⟩
        (.tensor ⟨[2], fun _ => 0⟩) [0] true "matmul"
        { adjoint_params := some [2, 1] }) = .ok [2] :=
  ⟨rfl, by decide, rfl⟩

theorem check_ok_facts {X : ControlPath} {func : VField} {z0 : PyVal}
    {t : List ℚ} {a b : Bool}
    (h : _check_compatability X func z0 t = .ok (a, b)) :
    b = func.prod.isSome ∧ (∃ d, X.derivative = some d) ∧
    (∀ xs, z0 = .tup xs ∨ z0 = .list xs → a = false) := by
  obtain ⟨dopt, ev0, bufs⟩ := X
  cases dopt with
  | none => exact absurd h (by simp [_check_compatability])
  | some d =>
    cases z0 with
    | tensor z0T =>
      simp only [_check_compatability] at h
      split at h
      · exact absurd h (by simp)
      · simp only [Except.ok.injEq, Prod.mk.injEq] at h
        exact ⟨h.2.symm, ⟨d, rfl⟩, by rintro xs (hz | hz) <;> simp at hz⟩
    | tup zs =>
      simp only [_check_compatability] at h
      split at h
      · exact absurd h (by simp)
      · simp only [Except.ok.injEq, Prod.mk.injEq] at h
        exact ⟨h.2.symm, ⟨d, rfl⟩, fun xs hz => h.1.symm⟩
    | list zs =>
      simp only [_check_compatability] at h
      split at h
      · exact absurd h (by simp)
      · simp only [Except.ok.injEq, Prod.mk.injEq] at h
        exact ⟨h.2.symm, ⟨d, rfl⟩, fun xs hz => h.1.symm⟩
    | other oid => exact absurd h (by simp [_check_compatability])

/-- C4 (amended): in every configuration where the vector field
exposes the `prod` shortcut and the coupling mode is `evaluate` or
`derivative`, the pre-flight evaluation at `t[0]` completes without
raising the configuration error; the error is instead raised by the
adapter's right-hand side at its first evaluation by the external
integrator (whatever the evaluation point, in particular `t[0]`). -/
theorem C4_prod_mode_error (X : ControlPath) (func : VField) (z0 : PyVal)
    (t : List ℚ) (adjoint : Bool) (kwargs : Kwargs) (vftype : String)
    (w : List ℕ) (call : OdeintCall)
    (p : ℚ → PyVal → PyVal → PyVal) (hp : func.prod = some p)
    (hv : vftype = "evaluate" ∨ vftype = "derivative")
    (hpre : cdeint_pre X func z0 t adjoint vftype kwargs = .ok (w, call)) :
    ∀ s z, call.func.forward s z = .error .onlyMatmulForProd := by
  unfold cdeint_pre at hpre
  split at hpre
  · rcases hcheck : _check_compatability X func z0 t with e | ⟨it, ip⟩
    · rw [hcheck] at hpre
      exact absurd hpre (by simp)
    · rw [hcheck] at hpre
      simp only [Except.ok.injEq, Prod.mk.injEq] at hpre
      obtain ⟨-, hcall⟩ := hpre
      subst hcall
      obtain ⟨hb, ⟨d, hd⟩, -⟩ := check_ok_facts hcheck
      intro s z
      rcases hv with rfl | rfl <;>
        simp [_VectorField.forward, hd, hb, hp]
  · exact absurd hpre (by simp)

/-- C4 counterexample: a concrete configuration with the `prod`
shortcut and coupling mode `evaluate` on which the pre-flight
evaluation at `t[0]` completes without raising any error, refuting the
claim that the configuration error is raised during the pre-flight
evaluation, before integration begins. -/
theorem C4_counterexample :
    Except.map Prod.fst
      (cdeint_pre ⟨some fun _ => .tensor ⟨[1, 3], fun _ => 0⟩,
          some fun _ => .tensor ⟨[1, 3], fun _ => 0⟩, []⟩
        ⟨fun _ _ => .tensor ⟨[1, 2, 3], fun _ => 0⟩,
          some fun _ _ _ => .tensor ⟨[1, 2], fun _ => 0⟩⟩
        (.tensor ⟨[1, 2], fun _ => 0⟩) [0, 1] true "evaluate" {}) =
      .ok [] := rfl

theorem C4_witness :
    _VectorField.forward ⟨⟨some fun _ => .tensor ⟨[1, 3], fun _ => 0⟩,
        some fun _ => .tensor ⟨[1, 3], fun _ => 0⟩, []⟩,
      ⟨fun _ _ => .tensor ⟨[1, 2, 3], fun _ => 0⟩,
        some fun _ _ _ => .tensor ⟨[1, 2], fun _ => 0⟩⟩,
      true, true, "evaluate"⟩ 0 (.other 0) = .error .onlyMatmulForProd :=
  C4_prod_mode_error ⟨some fun _ => .tensor ⟨[1, 3], fun _ => 0⟩,
      some fun _ => .tensor ⟨[1, 3], fun _ => 0⟩, []⟩
    ⟨fun _ _ => .tensor ⟨[1, 2, 3], fun _ => 0⟩,
      some fun _ _ _ => .tensor ⟨[1, 2], fun _ => 0⟩⟩
    (.tensor ⟨[1, 2], fun _ => 0⟩) [0, 1] true {} "evaluate" [] _ _
    rfl (Or.inl rfl) rfl 0 (.other 0)

theorem zero_not_mem_range'_one (m : ℕ) : 0 ∉ List.range' 1 m := by
  intro hmem
  have := List.mem_range'_1.mp hmem
  omega

theorem top_not_mem_range'_one (m : ℕ) : m + 1 ∉ List.range' 1 m := by
  intro hmem
  have := List.mem_range'_1.mp hmem
  omega

/-- The permutation `(*range(1, n-1), 0, -1)` sends the entry of the
raw output at `(j, b..., c)` to position `(b..., j, c)`: the sequence
dimension lands second-to-last, batch dimensions in front of it. -/
theorem permuteSeq_spec (T : Tensor) (L hc : ℕ) (bs : List ℕ)
    (hs : T.shape = L :: (bs ++ [hc])) :
    (permuteSeq T).shape = bs ++ [L, hc] ∧
    ∀ bi : List ℕ, ∀ j c : ℕ, bi.length = bs.length →
      (permuteSeq T).data (bi ++ [j, c]) = T.data (j :: (bi ++ [c])) := by
  have hlen : T.shape.length = bs.length + 2 := by simp [hs]
  have hp : permuteSeq T =
      T.permute (List.range' 1 bs.length ++ [0, bs.length + 1]) := by
    unfold permuteSeq
    rw [hlen]
    norm_num
  have hmid : ∀ x ∈ List.range' 1 bs.length,
      T.shape.getD x 0 = bs.getD (x - 1) 0 := by
    intro x hx
    obtain ⟨hx1, hx2⟩ := List.mem_range'_1.mp hx
    rcases x with _ | x'
    · omega
    · simp only [hs, List.getD_cons_succ, Nat.add_sub_cancel]
      exact List.getD_append _ _ _ _ (by omega)
  constructor
  · rw [hp]
    show (List.range' 1 bs.length ++ [0, bs.length + 1]).map
        (fun j => T.shape.getD j 0) = bs ++ [L, hc]
    rw [List.map_append]
    congr 1
    · rw [List.map_congr_left hmid]
      exact map_getD_range' bs 0 1
    · have h0 : T.shape.getD 0 0 = L := by simp [hs]
      have htop : T.shape.getD (bs.length + 1) 0 = hc := by
        simp only [hs, List.getD_cons_succ]
        rw [List.getD_append_right _ _ _ _ (le_refl _)]
        simp
      simp only [List.map_cons, List.map_nil]
      rw [h0, htop]
  · intro bi j c hbi
    rw [hp]
    show T.data ((List.range T.shape.length).map fun j' =>
        (bi ++ [j, c]).getD
          (posIn j' (List.range' 1 bs.length ++ [0, bs.length + 1])) 0) =
      T.data (j :: (bi ++ [c]))
    congr 1
    have hsplit : List.range (bs.length + 2) =
        [0] ++ List.range' 1 bs.length ++ [bs.length + 1] := by
      rw [List.range_eq_range',
        show bs.length + 2 = 1 + (bs.length + 1) by omega,
        range'_split 0 1 (bs.length + 1), range'_split 1 bs.length 1,
        List.range'_one, List.range'_one]
      simp [Nat.add_comm]
    rw [hlen, hsplit, List.map_append, List.map_append]
    have hg0 : (bi ++ [j, c]).getD
        (posIn 0 (List.range' 1 bs.length ++ [0, bs.length + 1])) 0 = j := by
      rw [posIn_append_of_not_mem _ (zero_not_mem_range'_one bs.length),
        List.length_range',
        show posIn 0 [0, bs.length + 1] = 0 by simp [posIn],
        Nat.add_zero, List.getD_append_right _ _ _ _ (le_of_eq hbi),
        hbi, Nat.sub_self]
      rfl
    have hgtop : (bi ++ [j, c]).getD
        (posIn (bs.length + 1)
          (List.range' 1 bs.length ++ [0, bs.length + 1])) 0 = c := by
      rw [posIn_append_of_not_mem _ (top_not_mem_range'_one bs.length),
        List.length_range',
        show posIn (bs.length + 1) [0, bs.length + 1] = 1 by
          simp [posIn],
        List.getD_append_right _ _ _ _ (by omega), hbi]
      simp [Nat.add_sub_cancel_left]
    have hgmid : (List.range' 1 bs.length).map (fun j' =>
        (bi ++ [j, c]).getD
          (posIn j' (List.range' 1 bs.length ++ [0, bs.length + 1])) 0) =
        bi := by
      rw [List.map_congr_left (g := fun j' => bi.getD (j' - 1) 0)]
      · rw [← hbi]
        exact map_getD_range' bi 0 1
      · intro x hx
        obtain ⟨hx1, hx2⟩ := List.mem_range'_1.mp hx
        rw [posIn_append_of_mem _ hx]
        have hpx : posIn x (List.range' 1 bs.length) = x - 1 := by
          have hpr := posIn_range' 1 (x - 1) bs.length (by omega)
          rwa [show 1 + (x - 1) = x by omega] at hpr
        rw [hpx]
        exact List.getD_append _ _ _ _ (by omega)
    simp only [List.map_cons, List.map_nil, hg0, hgtop, hgmid]
    simp

theorem permuteElems_tensors (Ts : List Tensor) :
    permuteElems (Ts.map PyVal.tensor) =
      .ok (Ts.map fun T => PyVal.tensor (permuteSeq T)) := by
  induction Ts with
  | nil => rfl
  | cons T Ts ih => simp [permuteElems, ih]

/-- C2: the trajectory `cdeint` returns has, per state component,
shape `(batch..., len(t), hidden_channels)`: the external integrator's
sequence-first output (shape `(len(t), batch..., hidden)`) is permuted
so the sequence dimension sits second-to-last with batch dimensions
preceding it, and the permutation is applied to every tuple element in
multi-state mode. -/
theorem C2_output_layout (X : ControlPath) (func : VField) (z0 : PyVal)
    (t : List ℚ) (adjoint : Bool) (vftype : String) (kwargs : Kwargs)
    (odeint : OdeintCall → Except Err PyVal) (w : List ℕ)
    (call : OdeintCall) (out : PyVal)
    (hpre : cdeint_pre X func z0 t adjoint vftype kwargs = .ok (w, call))
    (hout : odeint call = .ok out) :
    (∀ T : Tensor, call.func.is_tensor = true → out = .tensor T →
      ∀ hc : ℕ, ∀ bs : List ℕ, T.shape = t.length :: (bs ++ [hc]) →
        cdeint X func z0 t adjoint vftype kwargs odeint =
          .ok (w, .tensor (permuteSeq T)) ∧
        (permuteSeq T).shape = bs ++ [t.length, hc] ∧
        (∀ bi j c, bi.length = bs.length →
          (permuteSeq T).data (bi ++ [j, c]) = T.data (j :: (bi ++ [c])))) ∧
    (∀ Ts : List Tensor, call.func.is_tensor = false →
      out = .tup (Ts.map PyVal.tensor) →
      cdeint X func z0 t adjoint vftype kwargs odeint =
        .ok (w, .tup (Ts.map fun T => PyVal.tensor (permuteSeq T))) ∧
      ∀ T ∈ Ts, ∀ hc : ℕ, ∀ bs : List ℕ,
        T.shape = t.length :: (bs ++ [hc]) →
        (permuteSeq T).shape = bs ++ [t.length, hc] ∧
        (∀ bi j c, bi.length = bs.length →
          (permuteSeq T).data (bi ++ [j, c]) = T.data (j :: (bi ++ [c])))) := by
  constructor
  · rintro T hit rfl hc bs hsh
    refine ⟨?_, (permuteSeq_spec T t.length hc bs hsh).1,
      (permuteSeq_spec T t.length hc bs hsh).2⟩
    simp [cdeint, hpre, hout, permuteOutput, hit]
  · rintro Ts hit rfl
    refine ⟨?_, fun T hT hc bs hsh =>
      ⟨(permuteSeq_spec T t.length hc bs hsh).1,
       (permuteSeq_spec T t.length hc bs hsh).2⟩⟩
    simp [cdeint, hpre, hout, permuteOutput, hit, elemsOf,
      permuteElems_tensors]

theorem C2_witness :
    cdeint ⟨some fun _ => .tensor ⟨[1, 3], fun _ => 0⟩, none, []⟩
        ⟨fun _ _ => .tensor ⟨[1, 2, 3], fun _ => 0⟩, none⟩
        (.tensor ⟨[1, 2], fun _ => 0⟩) [0, 1] false "matmul" {}
        (fun _ => .ok (.tensor ⟨[2, 1, 2], fun _ => 3⟩)) =
      .ok ([], .tensor (permuteSeq ⟨[2, 1, 2], fun _ => 3⟩)) ∧
    (permuteSeq ⟨[2, 1, 2], fun _ => 3⟩).shape = [1, 2, 2] :=
  ⟨((C2_output_layout ⟨some fun _ => .tensor ⟨[1, 3], fun _ => 0⟩, none, []⟩
      ⟨fun _ _ => .tensor ⟨[1, 2, 3], fun _ => 0⟩, none⟩
      (.tensor ⟨[1, 2], fun _ => 0⟩) [0, 1] false "matmul" {}
      (fun _ => .ok (.tensor ⟨[2, 1, 2], fun _ => 3⟩)) [] _
      (.tensor ⟨[2, 1, 2], fun _ => 3⟩) rfl rfl).1
      ⟨[2, 1, 2], fun _ => 3⟩ rfl rfl 2 [1] rfl).1,
   ((C2_output_layout ⟨some fun _ => .tensor ⟨[1, 3], fun _ => 0⟩, none, []⟩
      ⟨fun _ _ => .tensor ⟨[1, 2, 3], fun _ => 0⟩, none⟩
      (.tensor ⟨[1, 2], fun _ => 0⟩) [0, 1] false "matmul" {}
      (fun _ => .ok (.tensor ⟨[2, 1, 2], fun _ => 3⟩)) [] _
      (.tensor ⟨[2, 1, 2], fun _ => 3⟩) rfl rfl).1
      ⟨[2, 1, 2], fun _ => 3⟩ rfl rfl 2 [1] rfl).2.1⟩

theorem cdeint_pre_ok_facts {X : ControlPath} {func : VField} {z0 : PyVal}
    {t : List ℚ} {adjoint : Bool} {vftype : String} {kwargs : Kwargs}
    {w : List ℕ} {call : OdeintCall}
    (h : cdeint_pre X func z0 t adjoint vftype kwargs = .ok (w, call)) :
    ∃ it ip, _check_compatability X func z0 t = .ok (it, ip) ∧
      call.func = ⟨X, func, it, ip, vftype⟩ := by
  unfold cdeint_pre at h
  split at h
  · rcases hc : _check_compatability X func z0 t with e | ⟨it, ip⟩ <;>
      rw [hc] at h
    · exact absurd h (by simp)
    · simp only [Except.ok.injEq, Prod.mk.injEq] at h
      exact ⟨it, ip, rfl, by rw [← h.2]⟩
  · exact absurd h (by simp)

/-- C10: the structural checks treat Python lists and tuples
interchangeably — the tuple-mode check gives identical results whether
the control gradient or the field output is a list or a tuple of the
same elements, and the full compatibility check gives identical
results for a list versus a tuple state (given that the single
validation evaluation of the field returns the same value on both, as
it does for any field that does not itself discriminate the two
container types); and whenever `z0` is a tuple or a list, a trajectory
returned by `cdeint` is always a `tuple`. -/
theorem C10_list_tuple_interchange :
    (∀ (cs : List PyVal) (fv : PyVal) (ip : Bool) (zs : List PyVal),
      _check_tuple_mode (.list cs) fv ip zs =
        _check_tuple_mode (.tup cs) fv ip zs) ∧
    (∀ (cg : PyVal) (fs : List PyVal) (ip : Bool) (zs : List PyVal),
      _check_tuple_mode cg (.list fs) ip zs =
        _check_tuple_mode cg (.tup fs) ip zs) ∧
    (∀ (X : ControlPath) (func : VField) (xs : List PyVal) (t : List ℚ)
        (d : ℚ → PyVal), X.derivative = some d →
      fvalOf func (t.headD 0) (.tup xs) (d (t.headD 0)) =
        fvalOf func (t.headD 0) (.list xs) (d (t.headD 0)) →
      _check_compatability X func (.list xs) t =
        _check_compatability X func (.tup xs) t) ∧
    (∀ (X : ControlPath) (func : VField) (z0 : PyVal) (t : List ℚ)
        (adjoint : Bool) (vftype : String) (kwargs : Kwargs)
        (odeint : OdeintCall → Except Err PyVal) (w : List ℕ) (r : PyVal)
        (xs : List PyVal),
      (z0 = .tup xs ∨ z0 = .list xs) →
      cdeint X func z0 t adjoint vftype kwargs odeint = .ok (w, r) →
      ∃ ys, r = .tup ys) := by
  refine ⟨fun cs fv ip zs => rfl, fun cg fs ip zs => ?_, ?_, ?_⟩
  · unfold _check_tuple_mode
    rfl
  · intro X func xs t d hd hfv
    obtain ⟨dopt, ev0, bufs⟩ := X
    simp only at hd
    subst hd
    simp only [_check_compatability]
    rw [hfv]
  · intro X func z0 t adjoint vftype kwargs odeint w r xs hz hok
    rcases hpre : cdeint_pre X func z0 t adjoint vftype kwargs with
      e | ⟨w2, call2⟩
    · simp [cdeint, hpre] at hok
    · simp only [cdeint, hpre] at hok
      rcases hodo : odeint call2 with e | out
      · simp [hodo] at hok
      · simp only [hodo] at hok
        obtain ⟨it, ip, hcheck, hcf⟩ := cdeint_pre_ok_facts hpre
        have hit : it = false := (check_ok_facts hcheck).2.2 xs hz
        have hfit : call2.func.is_tensor = false := by rw [hcf, hit]
        rw [hfit] at hok
        unfold permuteOutput at hok
        simp only [Bool.false_eq_true, if_false] at hok
        rcases hel : elemsOf out with _ | xs2
        · simp [hel] at hok
        · simp only [hel] at hok
          rcases hpe : permuteElems xs2 with e | ys
          · simp [hpe] at hok
          · simp only [hpe, Except.ok.injEq, Prod.mk.injEq] at hok
            exact ⟨ys, hok.2.symm⟩

theorem C10_witness :
    (_check_tuple_mode (.list [.tensor ⟨[1, 3], fun _ => 0⟩])
        (.tup [.tensor ⟨[1, 2, 3], fun _ => 0⟩]) false
        [.tensor ⟨[1, 2], fun _ => 0⟩] =
      _check_tuple_mode (.tup [.tensor ⟨[1, 3], fun _ => 0⟩])
        (.tup [.tensor ⟨[1, 2, 3], fun _ => 0⟩]) false
        [.tensor ⟨[1, 2], fun _ => 0⟩]) ∧
    (_check_compatability
        ⟨some fun _ => .tup [.tensor ⟨[1, 3], fun _ => 0⟩], none, []⟩
        ⟨fun _ _ => .tup [.tensor ⟨[1, 2, 3], fun _ => 0⟩], none⟩
        (.list [.tensor ⟨[1, 2], fun _ => 0⟩]) [0, 1] =
      _check_compatability
        ⟨some fun _ => .tup [.tensor ⟨[1, 3], fun _ => 0⟩], none, []⟩
        ⟨fun _ _ => .tup [.tensor ⟨[1, 2, 3], fun _ => 0⟩], none⟩
        (.tup [.tensor ⟨[1, 2], fun _ => 0⟩]) [0, 1]) ∧
    (∃ ys, PyVal.tup [.tensor (permuteSeq ⟨[2, 1, 2], fun _ => 3⟩)] =
      PyVal.tup ys) :=
  ⟨C10_list_tuple_interchange.1 [.tensor ⟨[1, 3], fun _ => 0⟩]
      (.tup [.tensor ⟨[1, 2, 3], fun _ => 0⟩]) false
      [.tensor ⟨[1, 2], fun _ => 0⟩],
   C10_list_tuple_interchange.2.2.1
      ⟨some fun _ => .tup [.tensor ⟨[1, 3], fun _ => 0⟩], none, []⟩
      ⟨fun _ _ => .tup [.tensor ⟨[1, 2, 3], fun _ => 0⟩], none⟩
      [.tensor ⟨[1, 2], fun _ => 0⟩] [0, 1] _ rfl rfl,
   C10_list_tuple_interchange.2.2.2
      ⟨some fun _ => .tup [.tensor ⟨[1, 3], fun _ => 0⟩], none, []⟩
      ⟨fun _ _ => .tup [.tensor ⟨[1, 2, 3], fun _ => 0⟩], none⟩
      (.tup [.tensor ⟨[1, 2], fun _ => 0⟩]) [0, 1] false "matmul" {}
      (fun _ => .ok (.tup [.tensor ⟨[2, 1, 2], fun _ => 3⟩])) []
      (.tup [.tensor (permuteSeq ⟨[2, 1, 2], fun _ => 3⟩)])
      [.tensor ⟨[1, 2], fun _ => 0⟩] (Or.inl rfl) rfl⟩

end Torchcde
